import Mathlib

/-!
Verification of the logisticsTracker test-data generator
(`generate_quick_test_data.py`) against its natural-language specification.

The embedding models Python floats as real numbers, Python `int()` truncation
as `pyInt`, fallible operations (`min()` of an empty sequence, float division
by zero, `random.choice` on an empty list) as `Except String`, and the
random choices of the driver-assignment pass as explicit parameters
(`sample` for `random.sample`, `pick` for the per-cluster `random.choice`).
-/

namespace Logistics

/-- An order record (`generate_orders`): the fields read or written by the
clustering and driver-assignment passes.  Purely decorative random metadata
(uuid, dates, weight, value, qr code, notes) is omitted. -/
structure Order where
  id : ℕ
  customerId : ℕ
  storeId : ℕ
  status : String
  priority : String
  pickupLatitude : ℝ
  pickupLongitude : ℝ
  deliveryLatitude : ℝ
  deliveryLongitude : ℝ
  clusterId : Option ℤ
  driverId : Option ℕ

/-- A cluster descriptor as emitted by `create_simple_clusters`
(random radius and timestamp metadata omitted). -/
structure Cluster where
  id : ℤ
  latitude : ℝ
  longitude : ℝ
  orderCount : ℕ

/-- A field agent; the assignment pass only reads `id`. -/
structure Agent where
  id : ℕ

/-- A customer; `generate_orders` reads `id` and the coordinates. -/
structure Customer where
  id : ℕ
  latitude : ℝ
  longitude : ℝ

/-- A store; `generate_orders` reads `id` and the coordinates. -/
structure Store where
  id : ℕ
  latitude : ℝ
  longitude : ℝ

/-- Python `int()` on a real value: truncation toward zero. -/
noncomputable def pyInt (x : ℝ) : ℤ := if 0 ≤ x then ⌊x⌋ else ⌈x⌉

/-- Python `int()` on a rational value: truncation toward zero. -/
def pyIntQ (x : ℚ) : ℤ := if 0 ≤ x then ⌊x⌋ else ⌈x⌉

/-- Embeds `min(f(o) for o in orders)` over the non-empty list `o :: rest`. -/
noncomputable def minBy (f : Order → ℝ) (o : Order) (rest : List Order) : ℝ :=
  rest.foldl (fun m oo => min m (f oo)) (f o)

/-- Embeds `max(f(o) for o in orders)` over the non-empty list `o :: rest`. -/
noncomputable def maxBy (f : Order → ℝ) (o : Order) (rest : List Order) : ℝ :=
  rest.foldl (fun m oo => max m (f oo)) (f o)

/-- The cluster id computed by the loop body of `create_simple_clusters`:
`lat_bin = int((lat - min_lat) / lat_step)`,
`lon_bin = int((lon - min_lon) / lon_step)`,
`cluster_id = lat_bin * int(num_clusters ** 0.5) + lon_bin + 1`,
stored as `min(cluster_id, num_clusters)`. -/
noncomputable def clusterIdFor (K : ℕ) (min_lat min_lon lat_step lon_step : ℝ)
    (o : Order) : ℤ :=
  min (pyInt ((o.deliveryLatitude - min_lat) / lat_step) * pyInt (Real.sqrt K)
      + pyInt ((o.deliveryLongitude - min_lon) / lon_step) + 1) (K : ℤ)

/-- Embeds `order["clusterId"] = min(cluster_id, num_clusters)`. -/
noncomputable def assignCluster (K : ℕ) (min_lat min_lon lat_step lon_step : ℝ)
    (o : Order) : Order :=
  { o with clusterId := some (clusterIdFor K min_lat min_lon lat_step lon_step o) }

/-- Accumulator entry of the `clusters` dict:
key, running `lat_sum`, running `lon_sum`, running `count`. -/
structure ClusterAcc where
  key : ℤ
  lat_sum : ℝ
  lon_sum : ℝ
  count : ℕ

/-- One step of the grouping loop: bump the (first) entry with the given key,
or append a fresh entry, mirroring the insertion-ordered Python dict. -/
noncomputable def updateAssoc : List ClusterAcc → ℤ → ℝ → ℝ → List ClusterAcc
  | [], cid, lat, lon => [⟨cid, lat, lon, 1⟩]
  | g :: rest, cid, lat, lon =>
    if g.key = cid then ⟨g.key, g.lat_sum + lat, g.lon_sum + lon, g.count + 1⟩ :: rest
    else g :: updateAssoc rest cid lat lon

/-- The grouping key `order["clusterId"]`; within `create_simple_clusters`
every order has just been given a cluster id, so the default is unreachable. -/
def keyOf (o : Order) : ℤ := o.clusterId.getD 0

/-- The grouping loop of `create_simple_clusters` over a list of orders. -/
noncomputable def groupFold (acc : List ClusterAcc) (os : List Order) : List ClusterAcc :=
  os.foldl (fun a o => updateAssoc a (keyOf o) o.deliveryLatitude o.deliveryLongitude) acc

/-- Conversion of the accumulated groups into cluster descriptors
(`if count > 0`, centroid = sums divided by count). -/
noncomputable def clusterDefsOf (groups : List ClusterAcc) : List Cluster :=
  (groups.filter (fun g => 0 < g.count)).map
    (fun g => { id := g.key, latitude := g.lat_sum / (g.count : ℝ),
                longitude := g.lon_sum / (g.count : ℝ), orderCount := g.count })

/-- Embeds `create_simple_clusters(orders, num_clusters)`.
`min()` of an empty order list raises; `(max_lat - min_lat) / num_clusters ** 0.5`
raises when `num_clusters ** 0.5` is zero; `int(... / lat_step)` inside the loop
raises on the first order when either step is zero. -/
noncomputable def create_simple_clusters (orders : List Order) (num_clusters : ℕ) :
    Except String (List Order × List Cluster) :=
  match orders with
  | [] => .error "min() arg is an empty sequence"
  | o :: rest =>
    if Real.sqrt num_clusters = 0 then .error "float division by zero"
    else
      if (maxBy Order.deliveryLatitude o rest - minBy Order.deliveryLatitude o rest)
            / Real.sqrt num_clusters = 0
          ∨ (maxBy Order.deliveryLongitude o rest - minBy Order.deliveryLongitude o rest)
            / Real.sqrt num_clusters = 0
      then .error "float division by zero"
      else
        .ok ((o :: rest).map (assignCluster num_clusters
              (minBy Order.deliveryLatitude o rest) (minBy Order.deliveryLongitude o rest)
              ((maxBy Order.deliveryLatitude o rest - minBy Order.deliveryLatitude o rest)
                / Real.sqrt num_clusters)
              ((maxBy Order.deliveryLongitude o rest - minBy Order.deliveryLongitude o rest)
                / Real.sqrt num_clusters)),
            clusterDefsOf (groupFold [] ((o :: rest).map (assignCluster num_clusters
              (minBy Order.deliveryLatitude o rest) (minBy Order.deliveryLongitude o rest)
              ((maxBy Order.deliveryLatitude o rest - minBy Order.deliveryLatitude o rest)
                / Real.sqrt num_clusters)
              ((maxBy Order.deliveryLongitude o rest - minBy Order.deliveryLongitude o rest)
                / Real.sqrt num_clusters)))))

/-- The specification's step-3 formula, verbatim from the spec's words:
side = ceil(sqrt(K)), latStep = (maxLat-minLat)/side, binLat = floor((lat-minLat)/latStep),
clusterId = binLat*side + binLon + 1 clamped to [1, K]. -/
noncomputable def specClusterId (K : ℕ) (minLat maxLat minLon maxLon lat lon : ℝ) : ℤ :=
  let side : ℤ := ⌈Real.sqrt K⌉
  let latStep := (maxLat - minLat) / (side : ℝ)
  let lonStep := (maxLon - minLon) / (side : ℝ)
  let binLat := ⌊(lat - minLat) / latStep⌋
  let binLon := ⌊(lon - minLon) / lonStep⌋
  max 1 (min (binLat * side + binLon + 1) (K : ℤ))

/-- The formula the source actually implements, written in the spec's style:
the step divisor is the real square root of K (not its ceiling), the row
multiplier is the floor of that square root, and the id is only capped above
at K (no lower clamp is applied). -/
noncomputable def codeClusterId (K : ℕ) (minLat maxLat minLon maxLon lat lon : ℝ) : ℤ :=
  let latStep := (maxLat - minLat) / Real.sqrt K
  let lonStep := (maxLon - minLon) / Real.sqrt K
  let binLat := ⌊(lat - minLat) / latStep⌋
  let binLon := ⌊(lon - minLon) / lonStep⌋
  min (binLat * ⌊Real.sqrt K⌋ + binLon + 1) (K : ℤ)

/-- Embeds `num_to_assign = int(len(orders) * num_assigned_percentage)`. -/
def num_to_assign (n : ℕ) (f : ℚ) : ℤ := pyIntQ ((n : ℚ) * f)

/-- Embeds `random.choice(seq)`: raises `IndexError` on an empty sequence, otherwise
returns the element at the pseudo-random index `r` (reduced modulo length). -/
def pyChoice (agents : List Agent) (r : ℕ) : Except String Agent :=
  match agents with
  | [] => .error "Cannot choose from an empty sequence"
  | a :: rest => .ok ((a :: rest).get ⟨r % (rest.length + 1), Nat.mod_lt _ (Nat.succ_pos _)⟩)

/-- The sampled orders paired with their positions in the order list:
`random.sample(orders, k)` modelled by the index list `sample`. -/
def selectedPairs (orders : List Order) (sample : List ℕ) : List (ℕ × Order) :=
  sample.filterMap (fun i => (orders.get? i).map (fun o => (i, o)))

/-- The keys of the `clusters` dict built from the sampled orders, in first
occurrence order (Python dict insertion order). -/
def clusterKeys (sp : List (ℕ × Order)) : List (Option ℤ) :=
  sp.foldl (fun ks p => if p.2.clusterId ∈ ks then ks else ks ++ [p.2.clusterId]) []

/-- The per-cluster `driver = random.choice(agents)` loop: one agent id per
represented cluster key, failing on an empty agent pool. -/
def chooseDrivers (agents : List Agent) (pick : Option ℤ → ℕ) :
    List (Option ℤ) → Except String (List (Option ℤ × ℕ))
  | [] => .ok []
  | c :: rest =>
    match pyChoice agents (pick c) with
    | .error e => .error e
    | .ok a =>
      match chooseDrivers agents pick rest with
      | .error e => .error e
      | .ok ds => .ok ((c, a.id) :: ds)

/-- The in-place mutation of one selected order:
`order["driverId"] = driver["id"]` and the Pending → Assigned promotion. -/
def assignOne (ds : List (Option ℤ × ℕ)) (o : Order) : Order :=
  match ds.lookup o.clusterId with
  | some d =>
    { o with driverId := some d,
             status := if o.status = "Pending" then "Assigned" else o.status }
  | none => o

/-- Replay of the mutations over the whole order list: the order at position
`i` is mutated exactly when `i` was sampled. -/
def applyAssignments (sample : List ℕ) (ds : List (Option ℤ × ℕ)) :
    List Order → ℕ → List Order
  | [], _ => []
  | o :: rest, i =>
    (if i ∈ sample then assignOne ds o else o) :: applyAssignments sample ds rest (i + 1)

/-- Embeds `assign_drivers_to_orders(orders, agents, num_assigned_percentage)`.
`sample` models the output of `random.sample(orders, num_to_assign)` and
`pick` the pseudo-random draws of the per-cluster `random.choice(agents)`.
`random.sample` raises `ValueError` when the requested size is negative or
exceeds the population. -/
def assign_drivers_to_orders (orders : List Order) (agents : List Agent) (f : ℚ)
    (sample : List ℕ) (pick : Option ℤ → ℕ) : Except String (List Order) :=
  let k := num_to_assign orders.length f
  if k < 0 ∨ (orders.length : ℤ) < k then
    .error "Sample larger than population or is negative"
  else
    match chooseDrivers agents pick (clusterKeys (selectedPairs orders sample)) with
    | .error e => .error e
    | .ok ds => .ok (applyAssignments sample ds orders 0)

/-- Embeds `generate_orders(num_orders, customers, stores)`: returns `[]` when either
input collection is empty (or missing), otherwise builds one order per index,
choosing a random customer and store (`pickC`, `pickS` model `random.choice`)
and random status and priority strings (`pickStatus`, `pickPriority`). -/
def generate_orders (num_orders : ℕ) (customers : List Customer) (stores : List Store)
    (pickC pickS : ℕ → ℕ) (pickStatus pickPriority : ℕ → String) : List Order :=
  match customers, stores with
  | [], _ => []
  | _ :: _, [] => []
  | c :: cs, s :: ss =>
    (List.range num_orders).map (fun j =>
      let i := j + 1
      let customer := (c :: cs).get ⟨pickC i % (cs.length + 1), Nat.mod_lt _ (Nat.succ_pos _)⟩
      let store := (s :: ss).get ⟨pickS i % (ss.length + 1), Nat.mod_lt _ (Nat.succ_pos _)⟩
      { id := i, customerId := customer.id, storeId := store.id,
        status := pickStatus i, priority := pickPriority i,
        pickupLatitude := store.latitude, pickupLongitude := store.longitude,
        deliveryLatitude := customer.latitude, deliveryLongitude := customer.longitude,
        clusterId := none, driverId := none })

/-- Total member count held by a grouping accumulator. -/
def sumCounts (l : List ClusterAcc) : ℕ := (l.map ClusterAcc.count).sum

/-- Sum of the delivery latitudes of the orders grouped under key `c`. -/
noncomputable def statsLat (os : List Order) (c : ℤ) : ℝ :=
  ((os.filter (fun o => keyOf o == c)).map Order.deliveryLatitude).sum

/-- Sum of the delivery longitudes of the orders grouped under key `c`. -/
noncomputable def statsLon (os : List Order) (c : ℤ) : ℝ :=
  ((os.filter (fun o => keyOf o == c)).map Order.deliveryLongitude).sum

/-- Number of orders grouped under key `c`. -/
def statsCount (os : List Order) (c : ℤ) : ℕ :=
  (os.filter (fun o => keyOf o == c)).length

/-- The keys held by a grouping accumulator, in order. -/
def keysOf (l : List ClusterAcc) : List ℤ := l.map ClusterAcc.key

/-- A minimal concrete order for the worked examples: only the delivery
coordinates matter to the clustering pass. -/
noncomputable def mkTestOrder (n : ℕ) (lat lon : ℝ) : Order :=
  ⟨n, 0, 0, "Pending", "Medium", 0, 0, lat, lon, none, none⟩

/-- Two orders at (0,0) and (10,10). -/
noncomputable def exA : List Order := [mkTestOrder 1 0 0, mkTestOrder 2 10 10]

/-- The clustering of `exA` with K = 4. -/
noncomputable def resA : List Order :=
  [{ mkTestOrder 1 0 0 with clusterId := some 1 },
   { mkTestOrder 2 10 10 with clusterId := some 4 }]

/-- The cluster descriptors for `exA` with K = 4. -/
noncomputable def cdsA : List Cluster := [⟨1, 0, 0, 1⟩, ⟨4, 10, 10, 1⟩]

/-- Three orders on the diagonal at (0,0), (1,1), (2,2). -/
noncomputable def exB : List Order :=
  [mkTestOrder 1 0 0, mkTestOrder 2 1 1, mkTestOrder 3 2 2]

/-- The clustering of `exB` with K = 2 that the source actually produces. -/
noncomputable def resB : List Order :=
  [{ mkTestOrder 1 0 0 with clusterId := some 1 },
   { mkTestOrder 2 1 1 with clusterId := some 1 },
   { mkTestOrder 3 2 2 with clusterId := some 2 }]

/-- The cluster descriptors for `exB` with K = 2. -/
noncomputable def cdsB : List Cluster := [⟨1, 1/2, 1/2, 2⟩, ⟨2, 2, 2, 1⟩]

/-- Two orders sharing the same delivery latitude (zero-width box on the
latitude axis). -/
noncomputable def exC : List Order := [mkTestOrder 1 5 0, mkTestOrder 2 5 3]

/-- The spec's worked example: four orders at (0,0), (0,10), (10,0), (10,10). -/
noncomputable def exD : List Order :=
  [mkTestOrder 1 0 0, mkTestOrder 2 0 10, mkTestOrder 3 10 0, mkTestOrder 4 10 10]

/-- The clustering of `exD` with K = 4 that the source actually produces:
the two orders at maximal latitude are both capped to cluster 4. -/
noncomputable def resD : List Order :=
  [{ mkTestOrder 1 0 0 with clusterId := some 1 },
   { mkTestOrder 2 0 10 with clusterId := some 3 },
   { mkTestOrder 3 10 0 with clusterId := some 4 },
   { mkTestOrder 4 10 10 with clusterId := some 4 }]

/-- The cluster descriptors for `exD` with K = 4: three clusters, the last
holding two orders with centroid (10, 5). -/
noncomputable def cdsD : List Cluster := [⟨1, 0, 0, 1⟩, ⟨3, 0, 10, 1⟩, ⟨4, 10, 5, 2⟩]

/-- A clustered pending order, used by the driver-assignment examples. -/
noncomputable def oE1 : Order := ⟨1, 0, 0, "Pending", "Medium", 0, 0, 1, 1, some 1, none⟩

/-- A clustered in-transit order in the same cluster as `oE1`. -/
noncomputable def oE2 : Order := ⟨2, 0, 0, "InTransit", "Low", 0, 0, 2, 2, some 1, none⟩

/-- A one-agent pool. -/
def agentsE : List Agent := [⟨7⟩]

/-- Order `oE1` after assignment to agent 7: Pending is promoted to Assigned. -/
noncomputable def resE1 : Order := ⟨1, 0, 0, "Assigned", "Medium", 0, 0, 1, 1, some 1, some 7⟩

/-- Order `oE2` after assignment to agent 7: its status is left untouched. -/
noncomputable def resE2 : Order := ⟨2, 0, 0, "InTransit", "Low", 0, 0, 2, 2, some 1, some 7⟩

/-- A single clustered pending order, for the empty-pool counterexample. -/
noncomputable def oF : Order := ⟨1, 0, 0, "Pending", "Low", 0, 0, 3, 4, some 1, none⟩

/-- A concrete customer for the order-generator witness. -/
noncomputable def cust1 : Customer := ⟨1, 2, 3⟩

/-- A concrete store for the order-generator witness. -/
noncomputable def store1 : Store := ⟨1, 4, 5⟩

/-- A `min`-fold is bounded by its initial value. -/
theorem foldl_min_le_init (f : Order → ℝ) :
    ∀ (l : List Order) (x : ℝ), l.foldl (fun m oo => min m (f oo)) x ≤ x := by
  intro l
  induction l with
  | nil => intro x; simp
  | cons a t ih =>
    intro x
    simp only [List.foldl_cons]
    exact le_trans (ih (min x (f a))) (min_le_left _ _)

/-- A `min`-fold is bounded by every listed value. -/
theorem foldl_min_le_arg (f : Order → ℝ) :
    ∀ (l : List Order) (x : ℝ) (oo : Order), oo ∈ l →
      l.foldl (fun m o2 => min m (f o2)) x ≤ f oo := by
  intro l
  induction l with
  | nil => intro x oo h; exact absurd h (List.not_mem_nil oo)
  | cons a t ih =>
    intro x oo h
    simp only [List.foldl_cons]
    rcases List.mem_cons.mp h with h | h
    · subst h
      exact le_trans (foldl_min_le_init f t (min x (f oo))) (min_le_right _ _)
    · exact ih (min x (f a)) oo h

/-- A `max`-fold dominates its initial value. -/
theorem init_le_foldl_max (f : Order → ℝ) :
    ∀ (l : List Order) (x : ℝ), x ≤ l.foldl (fun m oo => max m (f oo)) x := by
  intro l
  induction l with
  | nil => intro x; simp
  | cons a t ih =>
    intro x
    simp only [List.foldl_cons]
    exact le_trans (le_max_left _ _) (ih (max x (f a)))

/-- A `max`-fold dominates every listed value. -/
theorem arg_le_foldl_max (f : Order → ℝ) :
    ∀ (l : List Order) (x : ℝ) (oo : Order), oo ∈ l →
      f oo ≤ l.foldl (fun m o2 => max m (f o2)) x := by
  intro l
  induction l with
  | nil => intro x oo h; exact absurd h (List.not_mem_nil oo)
  | cons a t ih =>
    intro x oo h
    simp only [List.foldl_cons]
    rcases List.mem_cons.mp h with h | h
    · subst h
      exact le_trans (le_max_right _ _) (init_le_foldl_max f t (max x (f oo)))
    · exact ih (max x (f a)) oo h

/-- The bounding-box minimum is below every member's coordinate. -/
theorem minBy_le (f : Order → ℝ) (o : Order) (rest : List Order) :
    ∀ oo ∈ o :: rest, minBy f o rest ≤ f oo := by
  intro oo h
  rcases List.mem_cons.mp h with h | h
  · subst h; exact foldl_min_le_init f rest (f oo)
  · exact foldl_min_le_arg f rest (f o) oo h

/-- The bounding-box maximum is above every member's coordinate. -/
theorem le_maxBy (f : Order → ℝ) (o : Order) (rest : List Order) :
    ∀ oo ∈ o :: rest, f oo ≤ maxBy f o rest := by
  intro oo h
  rcases List.mem_cons.mp h with h | h
  · subst h; exact init_le_foldl_max f rest (f oo)
  · exact arg_le_foldl_max f rest (f o) oo h

/-- The bounding box is well ordered: min ≤ max. -/
theorem minBy_le_maxBy (f : Order → ℝ) (o : Order) (rest : List Order) :
    minBy f o rest ≤ maxBy f o rest :=
  le_trans (minBy_le f o rest o (List.mem_cons_self o rest))
    (le_maxBy f o rest o (List.mem_cons_self o rest))

/-- Python `int()` agrees with the floor on non-negative reals. -/
theorem pyInt_of_nonneg {x : ℝ} (h : 0 ≤ x) : pyInt x = ⌊x⌋ := if_pos h

/-- Python `int()` of a non-negative real is non-negative. -/
theorem pyInt_nonneg {x : ℝ} (h : 0 ≤ x) : 0 ≤ pyInt x := by
  rw [pyInt_of_nonneg h]
  exact Int.floor_nonneg.mpr h

/-- Any bin step that survived the zero test is strictly positive. -/
theorem step_pos (f : Order → ℝ) (o : Order) (rest : List Order) (K : ℕ)
    (h : (maxBy f o rest - minBy f o rest) / Real.sqrt K ≠ 0) :
    0 < (maxBy f o rest - minBy f o rest) / Real.sqrt K := by
  refine lt_of_le_of_ne ?_ (Ne.symm h)
  exact div_nonneg (sub_nonneg.mpr (minBy_le_maxBy f o rest)) (Real.sqrt_nonneg _)

/-- Inversion of a successful run of `create_simple_clusters`: the order list
was non-empty, no division by zero occurred, and the outputs are the annotated
orders together with the grouped descriptors. -/
theorem create_simple_clusters_ok {orders : List Order} {K : ℕ} {os' : List Order}
    {cds : List Cluster} (h : create_simple_clusters orders K = .ok (os', cds)) :
    ∃ o rest, orders = o :: rest ∧
      Real.sqrt K ≠ 0 ∧
      (maxBy Order.deliveryLatitude o rest - minBy Order.deliveryLatitude o rest)
        / Real.sqrt K ≠ 0 ∧
      (maxBy Order.deliveryLongitude o rest - minBy Order.deliveryLongitude o rest)
        / Real.sqrt K ≠ 0 ∧
      os' = (o :: rest).map (assignCluster K
          (minBy Order.deliveryLatitude o rest) (minBy Order.deliveryLongitude o rest)
          ((maxBy Order.deliveryLatitude o rest - minBy Order.deliveryLatitude o rest)
            / Real.sqrt K)
          ((maxBy Order.deliveryLongitude o rest - minBy Order.deliveryLongitude o rest)
            / Real.sqrt K)) ∧
      cds = clusterDefsOf (groupFold [] os') := by
  cases orders with
  | nil => simp [create_simple_clusters] at h
  | cons o rest =>
    refine ⟨o, rest, rfl, ?_⟩
    simp only [create_simple_clusters] at h
    split_ifs at h with h1 h2
    push_neg at h2
    obtain ⟨h2a, h2b⟩ := h2
    simp only [Except.ok.injEq, Prod.mk.injEq, List.map_cons] at h
    obtain ⟨hos, hcds⟩ := h
    refine ⟨h1, h2a, h2b, ?_, ?_⟩
    · rw [List.map_cons]; exact hos.symm
    · rw [← hos]
      exact hcds.symm

/-- Appending one observation to the accumulator adds one to its total count. -/
theorem sumCounts_updateAssoc (acc : List ClusterAcc) (cid : ℤ) (lat lon : ℝ) :
    sumCounts (updateAssoc acc cid lat lon) = sumCounts acc + 1 := by
  induction acc with
  | nil => simp [updateAssoc, sumCounts]
  | cons g rest ih =>
    by_cases hg : g.key = cid
    · simp [updateAssoc, hg, sumCounts]
      omega
    · simp [updateAssoc, hg, sumCounts] at ih ⊢
      omega

/-- The grouping fold adds exactly one count per processed order. -/
theorem sumCounts_groupFold (os : List Order) :
    ∀ acc : List ClusterAcc, sumCounts (groupFold acc os) = sumCounts acc + os.length := by
  induction os with
  | nil => intro acc; simp [groupFold]
  | cons o rest ih =>
    intro acc
    have : groupFold acc (o :: rest) =
        groupFold (updateAssoc acc (keyOf o) o.deliveryLatitude o.deliveryLongitude) rest := by
      simp [groupFold]
    rw [this, ih, sumCounts_updateAssoc]
    simp
    omega

/-- Updating the accumulator preserves positivity of all member counts. -/
theorem count_pos_updateAssoc {acc : List ClusterAcc} (cid : ℤ) (lat lon : ℝ)
    (h : ∀ g ∈ acc, 0 < g.count) :
    ∀ g ∈ updateAssoc acc cid lat lon, 0 < g.count := by
  induction acc with
  | nil => intro g hg; simp [updateAssoc] at hg; subst hg; simp
  | cons a rest ih =>
    intro g hg
    by_cases ha : a.key = cid
    · simp only [updateAssoc, if_pos ha] at hg
      rcases List.mem_cons.mp hg with h1 | h1
      · subst h1; simp
      · exact h g (List.mem_cons_of_mem a h1)
    · simp only [updateAssoc, if_neg ha] at hg
      rcases List.mem_cons.mp hg with h1 | h1
      · subst h1; exact h g (List.mem_cons_self _ _)
      · exact ih (fun g2 hg2 => h g2 (List.mem_cons_of_mem a hg2)) g h1

/-- All counts produced by the grouping fold are positive. -/
theorem count_pos_groupFold (os : List Order) :
    ∀ acc : List ClusterAcc, (∀ g ∈ acc, 0 < g.count) →
      ∀ g ∈ groupFold acc os, 0 < g.count := by
  induction os with
  | nil => intro acc h; simpa [groupFold] using h
  | cons o rest ih =>
    intro acc h g hg
    have heq : groupFold acc (o :: rest) =
        groupFold (updateAssoc acc (keyOf o) o.deliveryLatitude o.deliveryLongitude) rest := by
      simp [groupFold]
    rw [heq] at hg
    exact ih _ (count_pos_updateAssoc _ _ _ h) g hg

/-- Latitude sum over a cons whose head carries the searched key. -/
theorem statsLat_cons_self (o : Order) (os : List Order) :
    statsLat (o :: os) (keyOf o) = o.deliveryLatitude + statsLat os (keyOf o) := by
  simp [statsLat, List.filter_cons]

/-- Latitude sum over a cons whose head carries another key. -/
theorem statsLat_cons_ne {o : Order} {c : ℤ} (os : List Order) (h : ¬keyOf o = c) :
    statsLat (o :: os) c = statsLat os c := by
  simp [statsLat, List.filter_cons, h]

/-- Longitude sum over a cons whose head carries the searched key. -/
theorem statsLon_cons_self (o : Order) (os : List Order) :
    statsLon (o :: os) (keyOf o) = o.deliveryLongitude + statsLon os (keyOf o) := by
  simp [statsLon, List.filter_cons]

/-- Longitude sum over a cons whose head carries another key. -/
theorem statsLon_cons_ne {o : Order} {c : ℤ} (os : List Order) (h : ¬keyOf o = c) :
    statsLon (o :: os) c = statsLon os c := by
  simp [statsLon, List.filter_cons, h]

/-- Member count over a cons whose head carries the searched key. -/
theorem statsCount_cons_self (o : Order) (os : List Order) :
    statsCount (o :: os) (keyOf o) = statsCount os (keyOf o) + 1 := by
  simp [statsCount, List.filter_cons]

/-- Member count over a cons whose head carries another key. -/
theorem statsCount_cons_ne {o : Order} {c : ℤ} (os : List Order) (h : ¬keyOf o = c) :
    statsCount (o :: os) c = statsCount os c := by
  simp [statsCount, List.filter_cons, h]

/-- An update under a fresh key creates a singleton entry for that key. -/
theorem find?_updateAssoc_self_none {acc : List ClusterAcc} {cid : ℤ} (lat lon : ℝ)
    (h : acc.find? (fun g => g.key == cid) = none) :
    (updateAssoc acc cid lat lon).find? (fun g => g.key == cid) =
      some ⟨cid, lat, lon, 1⟩ := by
  induction acc with
  | nil =>
    simp only [updateAssoc]
    exact List.find?_cons_of_pos _ (by simp)
  | cons g rest ih =>
    by_cases hg : g.key = cid
    · rw [List.find?_cons_of_pos _ (by simp [hg])] at h
      exact absurd h (Option.some_ne_none g)
    · rw [List.find?_cons_of_neg _ (by simp [hg])] at h
      simp only [updateAssoc, if_neg hg]
      rw [List.find?_cons_of_neg _ (by simp [hg])]
      exact ih h

/-- An update under an existing key bumps that entry's sums and count. -/
theorem find?_updateAssoc_self_some {acc : List ClusterAcc} {cid : ℤ} {g0 : ClusterAcc}
    (lat lon : ℝ) (h : acc.find? (fun g => g.key == cid) = some g0) :
    (updateAssoc acc cid lat lon).find? (fun g => g.key == cid) =
      some ⟨g0.key, g0.lat_sum + lat, g0.lon_sum + lon, g0.count + 1⟩ := by
  induction acc with
  | nil => simp [List.find?] at h
  | cons g rest ih =>
    by_cases hg : g.key = cid
    · rw [List.find?_cons_of_pos _ (by simp [hg])] at h
      injection h with h
      subst h
      simp only [updateAssoc, if_pos hg]
      exact List.find?_cons_of_pos _ (by simp [hg])
    · rw [List.find?_cons_of_neg _ (by simp [hg])] at h
      simp only [updateAssoc, if_neg hg]
      rw [List.find?_cons_of_neg _ (by simp [hg])]
      exact ih h

/-- An update under one key leaves searches for any other key unchanged. -/
theorem find?_updateAssoc_other {c cid : ℤ} (acc : List ClusterAcc) (lat lon : ℝ)
    (h : c ≠ cid) :
    (updateAssoc acc cid lat lon).find? (fun g => g.key == c) =
      acc.find? (fun g => g.key == c) := by
  induction acc with
  | nil =>
    simp only [updateAssoc]
    rw [List.find?_cons_of_neg _ (by simp [Ne.symm h])]
  | cons g rest ih =>
    by_cases hg : g.key = cid
    · simp only [updateAssoc, if_pos hg]
      rw [List.find?_cons_of_neg _ (by simp [hg, Ne.symm h]),
        List.find?_cons_of_neg _ (by simp [hg, Ne.symm h])]
    · simp only [updateAssoc, if_neg hg]
      cases hgc : (g.key == c) with
      | true =>
        rw [List.find?_cons_of_pos (updateAssoc rest cid lat lon) hgc,
          List.find?_cons_of_pos rest hgc]
      | false =>
        rw [List.find?_cons_of_neg (updateAssoc rest cid lat lon) (by simp [hgc]),
          List.find?_cons_of_neg rest (by simp [hgc])]
        exact ih

/-- The grouping fold computes, entry by entry, exactly the per-key filter
statistics of the processed orders, merged with the incoming accumulator. -/
theorem find?_groupFold (os : List Order) :
    ∀ (acc : List ClusterAcc) (c : ℤ),
      (acc.find? (fun g => g.key == c) = none →
        (groupFold acc os).find? (fun g => g.key == c) =
          (if 0 < statsCount os c then
            some ⟨c, statsLat os c, statsLon os c, statsCount os c⟩ else none)) ∧
      (∀ g0, acc.find? (fun g => g.key == c) = some g0 →
        (groupFold acc os).find? (fun g => g.key == c) =
          some ⟨g0.key, g0.lat_sum + statsLat os c, g0.lon_sum + statsLon os c,
                g0.count + statsCount os c⟩) := by
  induction os with
  | nil =>
    intro acc c
    refine ⟨fun h => ?_, fun g0 h => ?_⟩
    · simpa [groupFold, statsCount] using h
    · simp only [groupFold, List.foldl_nil]
      rw [h]
      simp [statsCount, statsLat, statsLon]
  | cons o rest ih =>
    intro acc c
    have hstep : groupFold acc (o :: rest) =
        groupFold (updateAssoc acc (keyOf o) o.deliveryLatitude o.deliveryLongitude) rest := by
      simp [groupFold]
    refine ⟨fun h => ?_, fun g0 h => ?_⟩
    · rw [hstep]
      by_cases hco : keyOf o = c
      · subst hco
        have hup := find?_updateAssoc_self_none o.deliveryLatitude o.deliveryLongitude h
        have hres := (ih (updateAssoc acc (keyOf o) o.deliveryLatitude o.deliveryLongitude)
          (keyOf o)).2 _ hup
        rw [hres, statsLat_cons_self, statsLon_cons_self, statsCount_cons_self,
          if_pos (Nat.succ_pos _)]
        simp [Nat.add_comm]
      · have hup := find?_updateAssoc_other acc o.deliveryLatitude o.deliveryLongitude
          (fun hx => hco hx.symm)
        have hres := (ih (updateAssoc acc (keyOf o) o.deliveryLatitude o.deliveryLongitude) c).1
          (by rw [hup]; exact h)
        rw [hres, statsLat_cons_ne _ hco, statsLon_cons_ne _ hco, statsCount_cons_ne _ hco]
    · rw [hstep]
      by_cases hco : keyOf o = c
      · subst hco
        have hup := find?_updateAssoc_self_some o.deliveryLatitude o.deliveryLongitude h
        have hres := (ih (updateAssoc acc (keyOf o) o.deliveryLatitude o.deliveryLongitude)
          (keyOf o)).2 _ hup
        rw [hres, statsLat_cons_self, statsLon_cons_self, statsCount_cons_self]
        simp only [Option.some.injEq, ClusterAcc.mk.injEq]
        refine ⟨by trivial, by ring, by ring, by omega⟩
      · have hup := find?_updateAssoc_other acc o.deliveryLatitude o.deliveryLongitude
          (fun hx => hco hx.symm)
        have hres := (ih (updateAssoc acc (keyOf o) o.deliveryLatitude o.deliveryLongitude) c).2 g0
          (by rw [hup]; exact h)
        rw [hres, statsLat_cons_ne _ hco, statsLon_cons_ne _ hco, statsCount_cons_ne _ hco]

/-- Updating either reuses an existing key or appends the new key at the end. -/
theorem keysOf_updateAssoc (acc : List ClusterAcc) (cid : ℤ) (lat lon : ℝ) :
    keysOf (updateAssoc acc cid lat lon) =
      if cid ∈ keysOf acc then keysOf acc else keysOf acc ++ [cid] := by
  induction acc with
  | nil => simp [updateAssoc, keysOf]
  | cons g rest ih =>
    by_cases hg : g.key = cid
    · have hmem : cid ∈ keysOf (g :: rest) := by
        simp only [keysOf, List.map_cons, List.mem_cons]
        exact Or.inl hg.symm
      rw [if_pos hmem]
      simp [updateAssoc, hg, keysOf]
    · have hupd : updateAssoc (g :: rest) cid lat lon = g :: updateAssoc rest cid lat lon := by
        simp [updateAssoc, hg]
      have hkeys : keysOf (g :: updateAssoc rest cid lat lon) =
          g.key :: keysOf (updateAssoc rest cid lat lon) := rfl
      rw [hupd, hkeys, ih]
      by_cases hmem : cid ∈ keysOf rest
      · rw [if_pos hmem,
          if_pos (show cid ∈ keysOf (g :: rest) from List.mem_cons_of_mem _ hmem)]
        rfl
      · rw [if_neg hmem, if_neg (show cid ∉ keysOf (g :: rest) from by
          intro hx
          rcases List.mem_cons.mp hx with hx | hx
          · exact hg hx.symm
          · exact hmem hx)]
        rfl

/-- Updating preserves distinctness of the accumulator keys. -/
theorem nodup_keysOf_updateAssoc {acc : List ClusterAcc} (cid : ℤ) (lat lon : ℝ)
    (h : (keysOf acc).Nodup) : (keysOf (updateAssoc acc cid lat lon)).Nodup := by
  rw [keysOf_updateAssoc]
  by_cases hmem : cid ∈ keysOf acc
  · rwa [if_pos hmem]
  · rw [if_neg hmem]
    simp [List.nodup_append, h, hmem]

/-- The grouping fold keeps accumulator keys distinct. -/
theorem nodup_keysOf_groupFold (os : List Order) :
    ∀ acc : List ClusterAcc, (keysOf acc).Nodup → (keysOf (groupFold acc os)).Nodup := by
  induction os with
  | nil => intro acc h; simpa [groupFold] using h
  | cons o rest ih =>
    intro acc h
    have hstep : groupFold acc (o :: rest) =
        groupFold (updateAssoc acc (keyOf o) o.deliveryLatitude o.deliveryLongitude) rest := by
      simp [groupFold]
    rw [hstep]
    exact ih _ (nodup_keysOf_updateAssoc _ _ _ h)

/-- In an accumulator with distinct keys, searching for a member's key finds
that member. -/
theorem find?_of_mem_nodup :
    ∀ (l : List ClusterAcc), (keysOf l).Nodup → ∀ g ∈ l,
      l.find? (fun x => x.key == g.key) = some g := by
  intro l
  induction l with
  | nil => intro _ g hg; exact absurd hg (List.not_mem_nil g)
  | cons a rest ih =>
    intro hnd g hg
    have hnd' : a.key ∉ List.map ClusterAcc.key rest ∧ (List.map ClusterAcc.key rest).Nodup := by
      simpa [keysOf] using hnd
    rcases List.mem_cons.mp hg with h | h
    · subst h
      exact List.find?_cons_of_pos _ (by simp)
    · have hne : ¬((a.key == g.key) = true) := by
        simp only [beq_iff_eq]
        intro heq
        exact hnd'.1 (by rw [heq]; exact List.mem_map_of_mem ClusterAcc.key h)
      rw [List.find?_cons_of_neg rest hne]
      exact ih (by simpa [keysOf] using hnd'.2) g h

/-- Orders produced by the annotation map carry a `some` cluster id. -/
theorem clusterId_of_mem_map {K : ℕ} {a b c d : ℝ} {l : List Order} {o' : Order}
    (h : o' ∈ l.map (assignCluster K a b c d)) :
    ∃ v : ℤ, o'.clusterId = some v := by
  obtain ⟨oo, _, rfl⟩ := List.mem_map.mp h
  exact ⟨clusterIdFor K a b c d oo, rfl⟩

/-- Filtering on the stored cluster id and filtering on the grouping key agree
once every order carries a `some` cluster id. -/
theorem filter_clusterId_eq_filter_key (os : List Order)
    (hall : ∀ o ∈ os, ∃ v : ℤ, o.clusterId = some v) (k : ℤ) :
    os.filter (fun o => o.clusterId == some k) = os.filter (fun o => keyOf o == k) := by
  apply List.filter_congr
  intro o ho
  obtain ⟨v, hv⟩ := hall o ho
  simp [keyOf, hv]

/-- Claim C1: for K > 0, a completed run of the Grid Clusterer assigns every
order a clusterId in [1, K], and the emitted descriptors' member counts sum to
the total number of orders. -/
theorem C1_clusterIds_bounded_counts_sum (orders : List Order) (K : ℕ) (hK : 0 < K)
    (os' : List Order) (cds : List Cluster)
    (h : create_simple_clusters orders K = .ok (os', cds)) :
    (∀ o ∈ os', ∃ c : ℤ, o.clusterId = some c ∧ 1 ≤ c ∧ c ≤ (K : ℤ)) ∧
    (cds.map Cluster.orderCount).sum = orders.length := by
  obtain ⟨o, rest, horders, hside, hlat, hlon, hos, hcds⟩ := create_simple_clusters_ok h
  constructor
  · intro o' ho'
    rw [hos] at ho'
    obtain ⟨oo, hoo, rfl⟩ := List.mem_map.mp ho'
    refine ⟨clusterIdFor K (minBy Order.deliveryLatitude o rest)
      (minBy Order.deliveryLongitude o rest)
      ((maxBy Order.deliveryLatitude o rest - minBy Order.deliveryLatitude o rest)
        / Real.sqrt K)
      ((maxBy Order.deliveryLongitude o rest - minBy Order.deliveryLongitude o rest)
        / Real.sqrt K) oo, rfl, ?_, ?_⟩
    · unfold clusterIdFor
      refine le_min ?_ (by exact_mod_cast hK)
      have hlatpos := step_pos Order.deliveryLatitude o rest K hlat
      have hlonpos := step_pos Order.deliveryLongitude o rest K hlon
      have hb1 : 0 ≤ pyInt ((oo.deliveryLatitude - minBy Order.deliveryLatitude o rest)
          / ((maxBy Order.deliveryLatitude o rest - minBy Order.deliveryLatitude o rest)
            / Real.sqrt K)) :=
        pyInt_nonneg (div_nonneg
          (sub_nonneg.mpr (minBy_le Order.deliveryLatitude o rest oo hoo)) hlatpos.le)
      have hb2 : 0 ≤ pyInt ((oo.deliveryLongitude - minBy Order.deliveryLongitude o rest)
          / ((maxBy Order.deliveryLongitude o rest - minBy Order.deliveryLongitude o rest)
            / Real.sqrt K)) :=
        pyInt_nonneg (div_nonneg
          (sub_nonneg.mpr (minBy_le Order.deliveryLongitude o rest oo hoo)) hlonpos.le)
      have hs : 0 ≤ pyInt (Real.sqrt K) := pyInt_nonneg (Real.sqrt_nonneg _)
      nlinarith [mul_nonneg hb1 hs]
    · exact min_le_right _ _
  · have hnil : ∀ g ∈ ([] : List ClusterAcc), 0 < g.count := by
      intro g hg; exact absurd hg (List.not_mem_nil g)
    have hpos := count_pos_groupFold os' [] hnil
    have hfilter : (groupFold [] os').filter (fun g => 0 < g.count) = groupFold [] os' := by
      rw [List.filter_eq_self]
      intro g hg
      simpa using hpos g hg
    have hmapcnt : (cds.map Cluster.orderCount) = (groupFold [] os').map ClusterAcc.count := by
      rw [hcds]
      unfold clusterDefsOf
      rw [hfilter, List.map_map]
      rfl
    have hsum := sumCounts_groupFold os' []
    have hlen : os'.length = orders.length := by
      rw [hos, horders, List.length_map]
    rw [hmapcnt, ← hlen]
    simpa [sumCounts] using hsum

/-- Claim C5: every emitted cluster descriptor's centroid is the exact
arithmetic mean of the coordinates of precisely the orders bearing its id,
and its member count is the number of those orders. -/
theorem C5_centroids_are_means (orders : List Order) (K : ℕ) (os' : List Order)
    (cds : List Cluster) (h : create_simple_clusters orders K = .ok (os', cds)) :
    ∀ c ∈ cds, 0 < c.orderCount ∧
      c.orderCount = (os'.filter (fun o => o.clusterId == some c.id)).length ∧
      c.latitude = ((os'.filter (fun o => o.clusterId == some c.id)).map
          Order.deliveryLatitude).sum / (c.orderCount : ℝ) ∧
      c.longitude = ((os'.filter (fun o => o.clusterId == some c.id)).map
          Order.deliveryLongitude).sum / (c.orderCount : ℝ) := by
  obtain ⟨o, rest, horders, hside, hlat, hlon, hos, hcds⟩ := create_simple_clusters_ok h
  intro c hc
  rw [hcds] at hc
  unfold clusterDefsOf at hc
  obtain ⟨g, hgmem, rfl⟩ := List.mem_map.mp hc
  obtain ⟨hgin, hgposb⟩ := List.mem_filter.mp hgmem
  have hgcount : 0 < g.count := by simpa using hgposb
  have hnd := nodup_keysOf_groupFold os' [] (by simp [keysOf])
  have hfind := find?_of_mem_nodup _ hnd g hgin
  have hstats := (find?_groupFold os' [] g.key).1 (by simp)
  rw [hfind] at hstats
  by_cases hc0 : 0 < statsCount os' g.key
  · rw [if_pos hc0] at hstats
    injection hstats with hstats
    have hkey : g.key = g.key := rfl
    have hlatsum : g.lat_sum = statsLat os' g.key := congrArg ClusterAcc.lat_sum hstats
    have hlonsum : g.lon_sum = statsLon os' g.key := congrArg ClusterAcc.lon_sum hstats
    have hcount : g.count = statsCount os' g.key := congrArg ClusterAcc.count hstats
    have hall : ∀ oo ∈ os', ∃ v : ℤ, oo.clusterId = some v := by
      intro oo hoo
      rw [hos] at hoo
      exact clusterId_of_mem_map hoo
    have hfeq := filter_clusterId_eq_filter_key os' hall g.key
    refine ⟨hgcount, ?_, ?_, ?_⟩
    · simpa [statsCount, hfeq] using hcount
    · show g.lat_sum / (g.count : ℝ) = _
      rw [hlatsum, hcount, hfeq]
      rfl
    · show g.lon_sum / (g.count : ℝ) = _
      rw [hlonsum, hcount, hfeq]
      rfl
  · rw [if_neg hc0] at hstats
    exact absurd hstats (Option.some_ne_none g)

/-- A `min`-fold over a list mapped through a coordinate-preserving function
equals the fold over the original list. -/
theorem foldl_min_map (f : Order → ℝ) (g : Order → Order) (hg : ∀ x, f (g x) = f x) :
    ∀ (l : List Order) (x : ℝ),
      (l.map g).foldl (fun m oo => min m (f oo)) x = l.foldl (fun m oo => min m (f oo)) x := by
  intro l
  induction l with
  | nil => intro x; rfl
  | cons a t ih =>
    intro x
    simp only [List.map_cons, List.foldl_cons, hg]
    exact ih _

/-- A `max`-fold over a list mapped through a coordinate-preserving function
equals the fold over the original list. -/
theorem foldl_max_map (f : Order → ℝ) (g : Order → Order) (hg : ∀ x, f (g x) = f x) :
    ∀ (l : List Order) (x : ℝ),
      (l.map g).foldl (fun m oo => max m (f oo)) x = l.foldl (fun m oo => max m (f oo)) x := by
  intro l
  induction l with
  | nil => intro x; rfl
  | cons a t ih =>
    intro x
    simp only [List.map_cons, List.foldl_cons, hg]
    exact ih _

/-- The bounding-box minimum is stable under coordinate-preserving maps. -/
theorem minBy_map (f : Order → ℝ) (g : Order → Order) (hg : ∀ x, f (g x) = f x)
    (o : Order) (rest : List Order) :
    minBy f (g o) (rest.map g) = minBy f o rest := by
  unfold minBy
  rw [hg, foldl_min_map f g hg]

/-- The bounding-box maximum is stable under coordinate-preserving maps. -/
theorem maxBy_map (f : Order → ℝ) (g : Order → Order) (hg : ∀ x, f (g x) = f x)
    (o : Order) (rest : List Order) :
    maxBy f (g o) (rest.map g) = maxBy f o rest := by
  unfold maxBy
  rw [hg, foldl_max_map f g hg]

/-- Claim C9: re-running the Grid Clusterer on its own output with the same K
reproduces that output exactly — in particular every order keeps the
clusterId it already has. -/
theorem C9_idempotent (orders : List Order) (K : ℕ) (os' : List Order) (cds : List Cluster)
    (h : create_simple_clusters orders K = .ok (os', cds)) :
    create_simple_clusters os' K = .ok (os', cds) := by
  obtain ⟨o, rest, horders, hside, hlat, hlon, hos, hcds⟩ := create_simple_clusters_ok h
  have hlatpres : ∀ x : Order, (assignCluster K (minBy Order.deliveryLatitude o rest)
      (minBy Order.deliveryLongitude o rest)
      ((maxBy Order.deliveryLatitude o rest - minBy Order.deliveryLatitude o rest)
        / Real.sqrt K)
      ((maxBy Order.deliveryLongitude o rest - minBy Order.deliveryLongitude o rest)
        / Real.sqrt K) x).deliveryLatitude = x.deliveryLatitude := fun x => rfl
  have hlonpres : ∀ x : Order, (assignCluster K (minBy Order.deliveryLatitude o rest)
      (minBy Order.deliveryLongitude o rest)
      ((maxBy Order.deliveryLatitude o rest - minBy Order.deliveryLatitude o rest)
        / Real.sqrt K)
      ((maxBy Order.deliveryLongitude o rest - minBy Order.deliveryLongitude o rest)
        / Real.sqrt K) x).deliveryLongitude = x.deliveryLongitude := fun x => rfl
  rw [hos, List.map_cons]
  simp only [create_simple_clusters]
  rw [minBy_map Order.deliveryLatitude _ hlatpres,
    maxBy_map Order.deliveryLatitude _ hlatpres,
    minBy_map Order.deliveryLongitude _ hlonpres,
    maxBy_map Order.deliveryLongitude _ hlonpres]
  rw [if_neg hside, if_neg (by
    intro hx
    rcases hx with hx | hx
    · exact hlat hx
    · exact hlon hx)]
  have hidem : ((o :: rest).map (assignCluster K (minBy Order.deliveryLatitude o rest)
      (minBy Order.deliveryLongitude o rest)
      ((maxBy Order.deliveryLatitude o rest - minBy Order.deliveryLatitude o rest)
        / Real.sqrt K)
      ((maxBy Order.deliveryLongitude o rest - minBy Order.deliveryLongitude o rest)
        / Real.sqrt K))).map (assignCluster K (minBy Order.deliveryLatitude o rest)
      (minBy Order.deliveryLongitude o rest)
      ((maxBy Order.deliveryLatitude o rest - minBy Order.deliveryLatitude o rest)
        / Real.sqrt K)
      ((maxBy Order.deliveryLongitude o rest - minBy Order.deliveryLongitude o rest)
        / Real.sqrt K)) = os' := by
    rw [List.map_map, hos]
    exact List.map_congr_left (fun a _ => rfl)
  rw [← List.map_cons, ← hos]
  rw [← hos] at hidem
  rw [hidem, ← hcds]

/-- Claim C2 (amended): every assigned clusterId obeys the source's formula
`codeClusterId` — bins divided by the real square root of K, row multiplier
the floor of that square root, id capped above at K — over the input's
bounding box. -/
theorem C2_amended_formula (o : Order) (rest : List Order) (K : ℕ) (os' : List Order)
    (cds : List Cluster) (h : create_simple_clusters (o :: rest) K = .ok (os', cds)) :
    os'.map Order.clusterId = (o :: rest).map (fun oo => some (codeClusterId K
      (minBy Order.deliveryLatitude o rest) (maxBy Order.deliveryLatitude o rest)
      (minBy Order.deliveryLongitude o rest) (maxBy Order.deliveryLongitude o rest)
      oo.deliveryLatitude oo.deliveryLongitude)) := by
  obtain ⟨o2, rest2, heq, hside, hlat, hlon, hos, hcds⟩ := create_simple_clusters_ok h
  injection heq with h1 h2
  subst h1
  subst h2
  rw [hos, List.map_map]
  apply List.map_congr_left
  intro oo hoo
  show some (clusterIdFor K _ _ _ _ oo) = _
  congr 1
  have hlatpos := step_pos Order.deliveryLatitude o rest K hlat
  have hlonpos := step_pos Order.deliveryLongitude o rest K hlon
  unfold clusterIdFor codeClusterId
  rw [pyInt_of_nonneg (div_nonneg
      (sub_nonneg.mpr (minBy_le Order.deliveryLatitude o rest oo hoo)) hlatpos.le),
    pyInt_of_nonneg (div_nonneg
      (sub_nonneg.mpr (minBy_le Order.deliveryLongitude o rest oo hoo)) hlonpos.le),
    pyInt_of_nonneg (Real.sqrt_nonneg _)]

/-- Replaying the mutations preserves the number of orders. -/
theorem applyAssignments_length (sample : List ℕ) (ds : List (Option ℤ × ℕ)) :
    ∀ (os : List Order) (i : ℕ), (applyAssignments sample ds os i).length = os.length := by
  intro os
  induction os with
  | nil => intro i; rfl
  | cons o rest ih =>
    intro i
    simp only [applyAssignments, List.length_cons, ih]

/-- The replay applies `assignOne` exactly at the sampled positions. -/
theorem applyAssignments_get (sample : List ℕ) (ds : List (Option ℤ × ℕ)) :
    ∀ (os : List Order) (i j : ℕ) (hj : j < os.length)
      (hj2 : j < (applyAssignments sample ds os i).length),
      (applyAssignments sample ds os i).get ⟨j, hj2⟩ =
        (if (i + j) ∈ sample then assignOne ds (os.get ⟨j, hj⟩) else os.get ⟨j, hj⟩) := by
  intro os
  induction os with
  | nil => intro i j hj; exact absurd hj (Nat.not_lt_zero j)
  | cons o rest ih =>
    intro i j hj hj2
    cases j with
    | zero => simp [applyAssignments]
    | succ j =>
      have hj' : j < rest.length := Nat.lt_of_succ_lt_succ hj
      have hj2' : j < (applyAssignments sample ds rest (i + 1)).length := by
        rw [applyAssignments_length]; exact hj'
      have := ih (i + 1) j hj' hj2'
      simp only [applyAssignments, List.get_cons_succ, this]
      have harith : i + 1 + j = i + (j + 1) := by omega
      rw [harith]

/-- With an empty sample the replay is the identity. -/
theorem applyAssignments_nil_sample (ds : List (Option ℤ × ℕ)) :
    ∀ (os : List Order) (i : ℕ), applyAssignments [] ds os i = os := by
  intro os
  induction os with
  | nil => intro i; rfl
  | cons o rest ih =>
    intro i
    simp only [applyAssignments, List.not_mem_nil, if_neg (fun hx => List.not_mem_nil i hx)]
    rw [ih]
    simp

/-- Every element of the replay comes from an input order, either untouched or
passed through `assignOne`. -/
theorem mem_applyAssignments {sample : List ℕ} {ds : List (Option ℤ × ℕ)} :
    ∀ (os : List Order) (i : ℕ) (o' : Order), o' ∈ applyAssignments sample ds os i →
      ∃ o ∈ os, o' = o ∨ o' = assignOne ds o := by
  intro os
  induction os with
  | nil => intro i o' h; exact absurd h (List.not_mem_nil o')
  | cons o rest ih =>
    intro i o' h
    simp only [applyAssignments] at h
    rcases List.mem_cons.mp h with h1 | h1
    · by_cases hs : i ∈ sample
      · rw [if_pos hs] at h1
        exact ⟨o, List.mem_cons_self o rest, Or.inr h1⟩
      · rw [if_neg hs] at h1
        exact ⟨o, List.mem_cons_self o rest, Or.inl h1⟩
    · obtain ⟨o0, ho0, hcase⟩ := ih (i + 1) o' h1
      exact ⟨o0, List.mem_cons_of_mem o ho0, hcase⟩

/-- Applying `assignOne` never changes the cluster id. -/
theorem assignOne_clusterId (ds : List (Option ℤ × ℕ)) (o : Order) :
    (assignOne ds o).clusterId = o.clusterId := by
  unfold assignOne
  cases ds.lookup o.clusterId <;> rfl

/-- Value of `assignOne` when the cluster has a chosen driver. -/
theorem assignOne_of_lookup_some {ds : List (Option ℤ × ℕ)} {o : Order} {d : ℕ}
    (h : ds.lookup o.clusterId = some d) :
    assignOne ds o = { o with driverId := some d,
                              status := (if o.status = "Pending" then "Assigned"
                                         else o.status) } := by
  unfold assignOne
  rw [h]

/-- Value of `assignOne` when the cluster has no chosen driver. -/
theorem assignOne_of_lookup_none {ds : List (Option ℤ × ℕ)} {o : Order}
    (h : ds.lookup o.clusterId = none) : assignOne ds o = o := by
  unfold assignOne
  rw [h]

/-- A successful driver-choice loop covers exactly the given keys, in order. -/
theorem chooseDrivers_keys {agents : List Agent} {pick : Option ℤ → ℕ} :
    ∀ {ks : List (Option ℤ)} {ds : List (Option ℤ × ℕ)},
      chooseDrivers agents pick ks = .ok ds → ds.map Prod.fst = ks := by
  intro ks
  induction ks with
  | nil =>
    intro ds h
    simp only [chooseDrivers, Except.ok.injEq] at h
    rw [← h]
    rfl
  | cons c rest ih =>
    intro ds h
    simp only [chooseDrivers] at h
    cases hpc : pyChoice agents (pick c) with
    | error e => rw [hpc] at h; exact absurd h (by simp)
    | ok a =>
      rw [hpc] at h
      cases hcd : chooseDrivers agents pick rest with
      | error e => rw [hcd] at h; exact absurd h (by simp)
      | ok ds0 =>
        rw [hcd] at h
        simp only [Except.ok.injEq] at h
        rw [← h, List.map_cons, ih hcd]

/-- The driver-choice loop on an empty pool fails as soon as a cluster exists. -/
theorem chooseDrivers_empty_agents (pick : Option ℤ → ℕ) (c : Option ℤ)
    (rest : List (Option ℤ)) :
    chooseDrivers [] pick (c :: rest) = .error "Cannot choose from an empty sequence" := by
  simp only [chooseDrivers, pyChoice]

/-- Looking up any covered key succeeds. -/
theorem lookup_some_of_key_mem {ds : List (Option ℤ × ℕ)} {k : Option ℤ}
    (h : k ∈ ds.map Prod.fst) : ∃ d, ds.lookup k = some d := by
  induction ds with
  | nil => exact absurd h (List.not_mem_nil k)
  | cons p rest ih =>
    rw [List.map_cons] at h
    by_cases hk : k = p.1
    · refine ⟨p.2, ?_⟩
      show List.lookup k (p :: rest) = some p.2
      rw [show p = (p.1, p.2) from rfl, List.lookup_cons]
      simp [hk]
    · rcases List.mem_cons.mp h with h1 | h1
      · exact absurd h1 hk
      · obtain ⟨d, hd⟩ := ih h1
        refine ⟨d, ?_⟩
        show List.lookup k (p :: rest) = some d
        have hkf : (k == p.1) = false := by simp [hk]
        rw [show p = (p.1, p.2) from rfl, List.lookup_cons, hkf]
        exact hd

/-- A sampled in-range index contributes its pair to `selectedPairs`. -/
theorem mem_selectedPairs {orders : List Order} {sample : List ℕ} {i : ℕ}
    (hs : i ∈ sample) (hi : i < orders.length) :
    (i, orders.get ⟨i, hi⟩) ∈ selectedPairs orders sample := by
  unfold selectedPairs
  apply List.mem_filterMap.mpr
  exact ⟨i, hs, by rw [List.get?_eq_get hi]; rfl⟩

/-- The key fold only ever extends its accumulator's membership. -/
theorem clusterKeys_fold_mem_mono (sp : List (ℕ × Order)) :
    ∀ (ks : List (Option ℤ)) (k : Option ℤ), k ∈ ks →
      k ∈ sp.foldl
        (fun ks p => if p.2.clusterId ∈ ks then ks else ks ++ [p.2.clusterId]) ks := by
  induction sp with
  | nil => intro ks k hk; simpa using hk
  | cons p rest ih =>
    intro ks k hk
    simp only [List.foldl_cons]
    by_cases hp : p.2.clusterId ∈ ks
    · rw [if_pos hp]; exact ih ks k hk
    · rw [if_neg hp]
      exact ih _ k (List.mem_append_left _ hk)

/-- Every selected pair's cluster key is collected by the key fold. -/
theorem clusterKeys_fold_mem (sp : List (ℕ × Order)) :
    ∀ (ks : List (Option ℤ)) (p : ℕ × Order), p ∈ sp →
      p.2.clusterId ∈ sp.foldl
        (fun ks q => if q.2.clusterId ∈ ks then ks else ks ++ [q.2.clusterId]) ks := by
  induction sp with
  | nil => intro ks p hp; exact absurd hp (List.not_mem_nil p)
  | cons q rest ih =>
    intro ks p hp
    simp only [List.foldl_cons]
    rcases List.mem_cons.mp hp with h1 | h1
    · subst h1
      by_cases hq : p.2.clusterId ∈ ks
      · rw [if_pos hq]
        exact clusterKeys_fold_mem_mono rest ks _ hq
      · rw [if_neg hq]
        exact clusterKeys_fold_mem_mono rest _ _
          (List.mem_append_right _ (List.mem_singleton.mpr rfl))
    · by_cases hq : q.2.clusterId ∈ ks
      · rw [if_pos hq]; exact ih ks p h1
      · rw [if_neg hq]; exact ih _ p h1

/-- Membership of each selected order's key in the collected cluster keys. -/
theorem clusterId_mem_clusterKeys {orders : List Order} {sample : List ℕ} {i : ℕ}
    (hs : i ∈ sample) (hi : i < orders.length) :
    (orders.get ⟨i, hi⟩).clusterId ∈ clusterKeys (selectedPairs orders sample) :=
  clusterKeys_fold_mem (selectedPairs orders sample) [] (i, orders.get ⟨i, hi⟩)
    (mem_selectedPairs hs hi)

/-- Inversion of a successful run of the Driver Assigner. -/
theorem assign_drivers_ok {orders : List Order} {agents : List Agent} {f : ℚ}
    {sample : List ℕ} {pick : Option ℤ → ℕ} {os' : List Order}
    (h : assign_drivers_to_orders orders agents f sample pick = .ok os') :
    ∃ ds, chooseDrivers agents pick (clusterKeys (selectedPairs orders sample)) = .ok ds ∧
      os' = applyAssignments sample ds orders 0 := by
  simp only [assign_drivers_to_orders] at h
  split_ifs at h
  cases hcd : chooseDrivers agents pick (clusterKeys (selectedPairs orders sample)) with
  | error e => rw [hcd] at h; exact absurd h (by simp)
  | ok ds =>
    rw [hcd] at h
    simp only [Except.ok.injEq] at h
    exact ⟨ds, rfl, h.symm⟩

/-- Claim C6: after one assignment run over orders that start without drivers,
any two result orders sharing a clusterId and both carrying a driver carry the
same driver. -/
theorem C6_one_driver_per_cluster (orders : List Order) (agents : List Agent) (f : ℚ)
    (sample : List ℕ) (pick : Option ℤ → ℕ) (os' : List Order)
    (hnull : ∀ o ∈ orders, o.driverId = none)
    (h : assign_drivers_to_orders orders agents f sample pick = .ok os') :
    ∀ o1 ∈ os', ∀ o2 ∈ os', o1.clusterId = o2.clusterId →
      ∀ d1 d2 : ℕ, o1.driverId = some d1 → o2.driverId = some d2 → d1 = d2 := by
  obtain ⟨ds, hcd, hos⟩ := assign_drivers_ok h
  have keyfact : ∀ (o' oa : Order), oa ∈ orders → (o' = oa ∨ o' = assignOne ds oa) →
      ∀ d : ℕ, o'.driverId = some d → ds.lookup o'.clusterId = some d := by
    intro o' oa hoa hca d hd
    rcases hca with rfl | rfl
    · rw [hnull o' hoa] at hd
      exact absurd hd (by simp)
    · cases hlk : ds.lookup oa.clusterId with
      | none =>
        rw [assignOne_of_lookup_none hlk] at hd
        rw [hnull oa hoa] at hd
        exact absurd hd (by simp)
      | some d0 =>
        have hdr : (assignOne ds oa).driverId = some d0 := by
          rw [assignOne_of_lookup_some hlk]
        rw [hdr] at hd
        injection hd with hd
        subst hd
        rw [assignOne_clusterId, hlk]
  intro o1 h1 o2 h2 hcl d1 d2 hd1 hd2
  rw [hos] at h1 h2
  obtain ⟨oa, hoa, hca⟩ := mem_applyAssignments orders 0 o1 h1
  obtain ⟨ob, hob, hcb⟩ := mem_applyAssignments orders 0 o2 h2
  have k1 := keyfact o1 oa hoa hca d1 hd1
  have k2 := keyfact o2 ob hob hcb d2 hd2
  rw [hcl, k2] at k1
  injection k1 with k1
  exact k1.symm

/-- Claim C7: the assigner touches only the driverId and status fields, and
only of sampled orders; a sampled Pending order becomes Assigned, a sampled
order of any other status keeps it, and an unsampled order is returned
unchanged with its driverId still null. -/
theorem C7_frame (orders : List Order) (agents : List Agent) (f : ℚ)
    (sample : List ℕ) (pick : Option ℤ → ℕ) (os' : List Order)
    (hnull : ∀ o ∈ orders, o.driverId = none)
    (h : assign_drivers_to_orders orders agents f sample pick = .ok os') :
    os'.length = orders.length ∧
    ∀ i (hi : i < orders.length) (hi' : i < os'.length),
      ((os'.get ⟨i, hi'⟩).id = (orders.get ⟨i, hi⟩).id ∧
       (os'.get ⟨i, hi'⟩).customerId = (orders.get ⟨i, hi⟩).customerId ∧
       (os'.get ⟨i, hi'⟩).storeId = (orders.get ⟨i, hi⟩).storeId ∧
       (os'.get ⟨i, hi'⟩).priority = (orders.get ⟨i, hi⟩).priority ∧
       (os'.get ⟨i, hi'⟩).pickupLatitude = (orders.get ⟨i, hi⟩).pickupLatitude ∧
       (os'.get ⟨i, hi'⟩).pickupLongitude = (orders.get ⟨i, hi⟩).pickupLongitude ∧
       (os'.get ⟨i, hi'⟩).deliveryLatitude = (orders.get ⟨i, hi⟩).deliveryLatitude ∧
       (os'.get ⟨i, hi'⟩).deliveryLongitude = (orders.get ⟨i, hi⟩).deliveryLongitude ∧
       (os'.get ⟨i, hi'⟩).clusterId = (orders.get ⟨i, hi⟩).clusterId) ∧
      (i ∈ sample →
        (∃ d : ℕ, (os'.get ⟨i, hi'⟩).driverId = some d) ∧
        (os'.get ⟨i, hi'⟩).status =
          (if (orders.get ⟨i, hi⟩).status = "Pending" then "Assigned"
           else (orders.get ⟨i, hi⟩).status)) ∧
      (i ∉ sample → os'.get ⟨i, hi'⟩ = orders.get ⟨i, hi⟩ ∧
        (os'.get ⟨i, hi'⟩).driverId = none) := by
  obtain ⟨ds, hcd, hos⟩ := assign_drivers_ok h
  have hkeys := chooseDrivers_keys hcd
  subst hos
  refine ⟨applyAssignments_length sample ds orders 0, ?_⟩
  intro i hi hi'
  have hget := applyAssignments_get sample ds orders 0 i hi hi'
  rw [Nat.zero_add] at hget
  by_cases hs : i ∈ sample
  · rw [if_pos hs] at hget
    have hmem := clusterId_mem_clusterKeys hs hi
    rw [← hkeys] at hmem
    obtain ⟨d, hd⟩ := lookup_some_of_key_mem hmem
    rw [assignOne_of_lookup_some hd] at hget
    refine ⟨?_, ?_, ?_⟩
    · rw [hget]
      exact ⟨rfl, rfl, rfl, rfl, rfl, rfl, rfl, rfl, rfl⟩
    · intro _
      rw [hget]
      exact ⟨⟨d, rfl⟩, rfl⟩
    · intro hns
      exact absurd hs hns
  · rw [if_neg hs] at hget
    refine ⟨?_, ?_, ?_⟩
    · rw [hget]
      exact ⟨rfl, rfl, rfl, rfl, rfl, rfl, rfl, rfl, rfl⟩
    · intro hsx
      exact absurd hsx hs
    · intro _
      refine ⟨hget, ?_⟩
      rw [hget]
      exact hnull _ (List.get_mem orders i hi)

/-- Claim C8 (amended): with an empty agent pool the assigner fails exactly
when the computed selection count `int(len(orders)*f)` is at least one; when
that count is zero (possible for f in (0,1) and small order counts) it
completes and returns the orders untouched, their driverIds still null. -/
theorem C8_amended_empty_pool (orders : List Order) (f : ℚ) (sample : List ℕ)
    (pick : Option ℤ → ℕ) (hf0 : 0 < f) (hf1 : f ≤ 1)
    (hlen : sample.length = (num_to_assign orders.length f).toNat)
    (hvalid : ∀ j ∈ sample, j < orders.length) :
    (1 ≤ num_to_assign orders.length f →
      ∃ msg, assign_drivers_to_orders orders [] f sample pick = .error msg) ∧
    (num_to_assign orders.length f = 0 →
      assign_drivers_to_orders orders [] f sample pick = .ok orders) := by
  constructor
  · intro h1
    have hsne : sample ≠ [] := by
      intro hx
      rw [hx] at hlen
      simp only [List.length_nil] at hlen
      omega
    obtain ⟨j, rest, rfl⟩ := List.exists_cons_of_ne_nil hsne
    have hj : j < orders.length := hvalid j (List.mem_cons_self _ _)
    have hkmem : (orders.get ⟨j, hj⟩).clusterId ∈
        clusterKeys (selectedPairs orders (j :: rest)) :=
      clusterId_mem_clusterKeys (List.mem_cons_self _ _) hj
    obtain ⟨c, ks, hck⟩ := List.exists_cons_of_ne_nil (List.ne_nil_of_mem hkmem)
    simp only [assign_drivers_to_orders]
    by_cases hrange : num_to_assign orders.length f < 0 ∨
        (orders.length : ℤ) < num_to_assign orders.length f
    · exact ⟨"Sample larger than population or is negative", by rw [if_pos hrange]⟩
    · refine ⟨"Cannot choose from an empty sequence", ?_⟩
      rw [if_neg hrange, hck, chooseDrivers_empty_agents]
  · intro h0
    have hs0 : sample = [] := List.eq_nil_of_length_eq_zero (by rw [hlen, h0]; rfl)
    subst hs0
    have hnr : ¬(num_to_assign orders.length f < 0 ∨
        (orders.length : ℤ) < num_to_assign orders.length f) := by
      rw [h0]
      push_neg
      exact ⟨le_refl 0, Int.natCast_nonneg _⟩
    simp only [assign_drivers_to_orders]
    rw [if_neg hnr]
    rw [show clusterKeys (selectedPairs orders []) = [] from rfl]
    rw [show chooseDrivers ([] : List Agent) pick [] = .ok [] from rfl]
    show Except.ok (applyAssignments [] [] orders 0) = Except.ok orders
    rw [applyAssignments_nil_sample]

/-- Claim C10: with an empty customer or store collection the Order Generator
returns the empty order list, whatever count was requested, without failing. -/
theorem C10_empty_inputs (n : ℕ) (customers : List Customer) (stores : List Store)
    (pickC pickS : ℕ → ℕ) (ps pp : ℕ → String)
    (h : customers = [] ∨ stores = []) :
    generate_orders n customers stores pickC pickS ps pp = [] := by
  rcases h with rfl | rfl
  · rfl
  · cases customers with
    | nil => rfl
    | cons c cs => rfl

/-- A `min`-fold over constant values collapses to that constant. -/
theorem foldl_min_const (f : Order → ℝ) (v : ℝ) :
    ∀ (l : List Order), (∀ oo ∈ l, f oo = v) → ∀ x, x = v →
      l.foldl (fun m oo => min m (f oo)) x = v := by
  intro l
  induction l with
  | nil => intro _ x hx; simpa using hx
  | cons a t ih =>
    intro h x hx
    simp only [List.foldl_cons]
    refine ih (fun oo hoo => h oo (List.mem_cons_of_mem a hoo)) _ ?_
    rw [hx, h a (List.mem_cons_self a t), min_self]

/-- A `max`-fold over constant values collapses to that constant. -/
theorem foldl_max_const (f : Order → ℝ) (v : ℝ) :
    ∀ (l : List Order), (∀ oo ∈ l, f oo = v) → ∀ x, x = v →
      l.foldl (fun m oo => max m (f oo)) x = v := by
  intro l
  induction l with
  | nil => intro _ x hx; simpa using hx
  | cons a t ih =>
    intro h x hx
    simp only [List.foldl_cons]
    refine ih (fun oo hoo => h oo (List.mem_cons_of_mem a hoo)) _ ?_
    rw [hx, h a (List.mem_cons_self a t), max_self]

/-- Claim C3 (amended): when every order shares one delivery latitude (or one
delivery longitude), the Grid Clusterer raises a division-by-zero error
instead of completing — there is no sentinel guard in the source. -/
theorem C3_amended_zero_width_fails (o : Order) (rest : List Order) (K : ℕ)
    (h : (∀ oo ∈ o :: rest, oo.deliveryLatitude = o.deliveryLatitude) ∨
         (∀ oo ∈ o :: rest, oo.deliveryLongitude = o.deliveryLongitude)) :
    ∃ msg, create_simple_clusters (o :: rest) K = .error msg := by
  refine ⟨"float division by zero", ?_⟩
  by_cases hside : Real.sqrt K = 0
  · simp only [create_simple_clusters]
    rw [if_pos hside]
  · have hcond : (maxBy Order.deliveryLatitude o rest - minBy Order.deliveryLatitude o rest)
          / Real.sqrt K = 0 ∨
        (maxBy Order.deliveryLongitude o rest - minBy Order.deliveryLongitude o rest)
          / Real.sqrt K = 0 := by
      rcases h with h | h
      · left
        have hmin : minBy Order.deliveryLatitude o rest = o.deliveryLatitude :=
          foldl_min_const Order.deliveryLatitude o.deliveryLatitude rest
            (fun oo hoo => h oo (List.mem_cons_of_mem o hoo)) _ rfl
        have hmax : maxBy Order.deliveryLatitude o rest = o.deliveryLatitude :=
          foldl_max_const Order.deliveryLatitude o.deliveryLatitude rest
            (fun oo hoo => h oo (List.mem_cons_of_mem o hoo)) _ rfl
        rw [hmin, hmax, sub_self, zero_div]
      · right
        have hmin : minBy Order.deliveryLongitude o rest = o.deliveryLongitude :=
          foldl_min_const Order.deliveryLongitude o.deliveryLongitude rest
            (fun oo hoo => h oo (List.mem_cons_of_mem o hoo)) _ rfl
        have hmax : maxBy Order.deliveryLongitude o rest = o.deliveryLongitude :=
          foldl_max_const Order.deliveryLongitude o.deliveryLongitude rest
            (fun oo hoo => h oo (List.mem_cons_of_mem o hoo)) _ rfl
        rw [hmin, hmax, sub_self, zero_div]
    simp only [create_simple_clusters]
    rw [if_neg hside, if_pos hcond]


theorem sqrt_nat_four : Real.sqrt ((4:ℕ):ℝ) = 2 := by
  rw [show ((4:ℕ):ℝ) = (2:ℝ)^2 by norm_num]
  exact Real.sqrt_sq (by norm_num)

theorem sqrt_four : Real.sqrt (4:ℝ) = 2 := by
  rw [show (4:ℝ) = (2:ℝ)^2 by norm_num]
  exact Real.sqrt_sq (by norm_num)

theorem evalA : create_simple_clusters exA 4 = .ok (resA, cdsA) := by
  norm_num [exA, resA, cdsA, create_simple_clusters, mkTestOrder, minBy, maxBy,
    assignCluster, clusterIdFor, pyInt, groupFold, updateAssoc, keyOf, clusterDefsOf,
    List.foldl_cons, List.foldl_nil, sqrt_nat_four, sqrt_four, min_def, max_def, Option.getD]

theorem sqrt_two_pos : 0 < Real.sqrt 2 := Real.sqrt_pos.mpr (by norm_num)

theorem one_lt_sqrt_two : 1 < Real.sqrt 2 :=
  (Real.lt_sqrt (by norm_num)).mpr (by norm_num)

theorem sqrt_two_lt_two : Real.sqrt 2 < 2 :=
  (Real.sqrt_lt' (by norm_num)).mpr (by norm_num)

theorem floor_sqrt_two : ⌊Real.sqrt 2⌋ = 1 := by
  rw [Int.floor_eq_iff]
  refine ⟨by push_cast; linarith [one_lt_sqrt_two], by push_cast; linarith [sqrt_two_lt_two]⟩

theorem ceil_sqrt_two : ⌈Real.sqrt 2⌉ = 2 := by
  rw [Int.ceil_eq_iff]
  refine ⟨by push_cast; linarith [one_lt_sqrt_two], by push_cast; linarith [sqrt_two_lt_two]⟩

theorem two_div_sqrt_two : (2:ℝ) / Real.sqrt 2 = Real.sqrt 2 := Real.div_sqrt

theorem pyInt_zero : pyInt 0 = 0 := by
  rw [pyInt_of_nonneg le_rfl, Int.floor_zero]

theorem pyInt_inv_sqrt_two : pyInt (Real.sqrt 2)⁻¹ = 0 := by
  rw [pyInt_of_nonneg (by positivity), Int.floor_eq_zero_iff]
  refine ⟨by positivity, inv_lt_one_of_one_lt₀ one_lt_sqrt_two⟩

theorem pyInt_sqrt_two : pyInt (Real.sqrt 2) = 1 := by
  rw [pyInt_of_nonneg (Real.sqrt_nonneg 2), floor_sqrt_two]

theorem evalB : create_simple_clusters exB 2 = .ok (resB, cdsB) := by
  norm_num [exB, resB, cdsB, create_simple_clusters, mkTestOrder, minBy, maxBy,
    assignCluster, clusterIdFor, groupFold, updateAssoc, keyOf, clusterDefsOf,
    List.foldl_cons, List.foldl_nil, min_def, max_def, Option.getD,
    div_eq_zero_iff, Real.sqrt_eq_zero', two_div_sqrt_two, pyInt_zero,
    pyInt_inv_sqrt_two, pyInt_sqrt_two]

theorem evalD : create_simple_clusters exD 4 = .ok (resD, cdsD) := by
  norm_num [exD, resD, cdsD, create_simple_clusters, mkTestOrder, minBy, maxBy,
    assignCluster, clusterIdFor, pyInt, groupFold, updateAssoc, keyOf, clusterDefsOf,
    List.foldl_cons, List.foldl_nil, sqrt_nat_four, sqrt_four, min_def, max_def, Option.getD]

/-- Claim C4 (amended): on the spec's four-corner example with K = 4 the source
produces only three clusters: the singletons at (0,0) and (0,10) with centroids
equal to their member, and a merged cluster 4 holding both (10,0) and (10,10)
with centroid (10,5). -/
theorem C4_amended_actual_output : create_simple_clusters exD 4 = .ok (resD, cdsD) := evalD

/-- Claim C4 counterexample: the run emits member counts [1, 1, 2] — three
clusters, one of them with two orders — not four singleton clusters. -/
theorem C4_counterexample :
    (create_simple_clusters exD 4).map (fun p => p.2.map Cluster.orderCount) =
      .ok [1, 1, 2] := by
  rw [evalD]
  rfl

/-- Claim C3 counterexample: two orders sharing delivery latitude 5 make the
clusterer raise a float division-by-zero error instead of completing. -/
theorem C3_counterexample :
    create_simple_clusters exC 4 = .error "float division by zero" := by
  norm_num [exC, create_simple_clusters, mkTestOrder, minBy, maxBy,
    List.foldl_cons, List.foldl_nil, sqrt_nat_four, sqrt_four, min_def, max_def]

/-- Claim C2 counterexample: on three diagonal orders with K = 2 the code
assigns the order at (1,1) clusterId 1, while the spec's ceil-based formula
over the same bounding box [0,2]x[0,2] yields 2. -/
theorem C2_counterexample :
    (create_simple_clusters exB 2).map (fun p => p.1.map Order.clusterId) =
      .ok [some 1, some 1, some 2] ∧
    minBy Order.deliveryLatitude (mkTestOrder 1 0 0)
      [mkTestOrder 2 1 1, mkTestOrder 3 2 2] = 0 ∧
    maxBy Order.deliveryLatitude (mkTestOrder 1 0 0)
      [mkTestOrder 2 1 1, mkTestOrder 3 2 2] = 2 ∧
    minBy Order.deliveryLongitude (mkTestOrder 1 0 0)
      [mkTestOrder 2 1 1, mkTestOrder 3 2 2] = 0 ∧
    maxBy Order.deliveryLongitude (mkTestOrder 1 0 0)
      [mkTestOrder 2 1 1, mkTestOrder 3 2 2] = 2 ∧
    specClusterId 2 0 2 0 2 1 1 = 2 := by
  refine ⟨?_, ?_, ?_, ?_, ?_, ?_⟩
  · rw [evalB]
    rfl
  · norm_num [minBy, mkTestOrder, List.foldl_cons, List.foldl_nil, min_def]
  · norm_num [maxBy, mkTestOrder, List.foldl_cons, List.foldl_nil, max_def]
  · norm_num [minBy, mkTestOrder, List.foldl_cons, List.foldl_nil, min_def]
  · norm_num [maxBy, mkTestOrder, List.foldl_cons, List.foldl_nil, max_def]
  · unfold specClusterId
    rw [show Real.sqrt ((2:ℕ):ℝ) = Real.sqrt 2 by norm_num, ceil_sqrt_two]
    norm_num

theorem evalE : assign_drivers_to_orders [oE1, oE2] agentsE 1 [0, 1] (fun _ => 0) =
    .ok [resE1, resE2] := by
  have hk : num_to_assign ([oE1, oE2] : List Order).length 1 = 2 := by
    norm_num [num_to_assign, pyIntQ]
  simp only [assign_drivers_to_orders, hk]
  norm_num
  rfl

/-- Claim C8 counterexample: one clustered pending order, f = 1/2, empty agent
pool: int(1 * 0.5) = 0 orders are sampled, so the assigner completes and
returns the order untouched with driverId still null, instead of failing. -/
theorem C8_counterexample :
    assign_drivers_to_orders [oF] [] (1/2) [] (fun _ => 0) = .ok [oF] ∧
    (0 : ℚ) < 1/2 ∧ (1/2 : ℚ) ≤ 1 ∧ oF.clusterId = some 1 ∧ oF.driverId = none := by
  refine ⟨?_, by norm_num, by norm_num, rfl, rfl⟩
  have hk : num_to_assign ([oF] : List Order).length (1/2) = 0 := by
    norm_num [num_to_assign, pyIntQ]
  simp only [assign_drivers_to_orders, hk]
  norm_num
  rfl

theorem C1_witness :
    (∀ o ∈ resA, ∃ c : ℤ, o.clusterId = some c ∧ 1 ≤ c ∧ c ≤ ((4:ℕ) : ℤ)) ∧
    (cdsA.map Cluster.orderCount).sum = exA.length :=
  C1_clusterIds_bounded_counts_sum exA 4 (by norm_num) resA cdsA evalA

theorem C2_witness :
    resA.map Order.clusterId = (mkTestOrder 1 0 0 :: [mkTestOrder 2 10 10]).map
      (fun oo => some (codeClusterId 4
        (minBy Order.deliveryLatitude (mkTestOrder 1 0 0) [mkTestOrder 2 10 10])
        (maxBy Order.deliveryLatitude (mkTestOrder 1 0 0) [mkTestOrder 2 10 10])
        (minBy Order.deliveryLongitude (mkTestOrder 1 0 0) [mkTestOrder 2 10 10])
        (maxBy Order.deliveryLongitude (mkTestOrder 1 0 0) [mkTestOrder 2 10 10])
        oo.deliveryLatitude oo.deliveryLongitude)) :=
  C2_amended_formula (mkTestOrder 1 0 0) [mkTestOrder 2 10 10] 4 resA cdsA evalA

theorem C3_witness :
    ∃ msg, create_simple_clusters (mkTestOrder 1 5 0 :: [mkTestOrder 2 5 3]) 4 =
      .error msg :=
  C3_amended_zero_width_fails (mkTestOrder 1 5 0) [mkTestOrder 2 5 3] 4
    (Or.inl (by simp [mkTestOrder]))

theorem C5_witness :
    0 < (Cluster.mk 1 0 0 1).orderCount ∧
    (Cluster.mk 1 0 0 1).orderCount =
      (resA.filter (fun o => o.clusterId == some (Cluster.mk 1 0 0 1).id)).length ∧
    (Cluster.mk 1 0 0 1).latitude =
      ((resA.filter (fun o => o.clusterId == some (Cluster.mk 1 0 0 1).id)).map
        Order.deliveryLatitude).sum / ((Cluster.mk 1 0 0 1).orderCount : ℝ) ∧
    (Cluster.mk 1 0 0 1).longitude =
      ((resA.filter (fun o => o.clusterId == some (Cluster.mk 1 0 0 1).id)).map
        Order.deliveryLongitude).sum / ((Cluster.mk 1 0 0 1).orderCount : ℝ) :=
  C5_centroids_are_means exA 4 resA cdsA evalA (Cluster.mk 1 0 0 1)
    (List.mem_cons_self _ _)

theorem C9_witness : create_simple_clusters resA 4 = .ok (resA, cdsA) :=
  C9_idempotent exA 4 resA cdsA evalA

theorem C6_witness : (7 : ℕ) = 7 :=
  C6_one_driver_per_cluster [oE1, oE2] agentsE 1 [0, 1] (fun _ => 0) [resE1, resE2]
    (by simp [oE1, oE2]) evalE resE1 (List.mem_cons_self _ _) resE2
    (List.mem_cons_of_mem _ (List.mem_cons_self _ _)) rfl 7 7 rfl rfl

theorem C7_witness :
    ([resE1, resE2] : List Order).length = ([oE1, oE2] : List Order).length ∧
    ∀ i (hi : i < ([oE1, oE2] : List Order).length)
      (hi' : i < ([resE1, resE2] : List Order).length),
      ((([resE1, resE2] : List Order).get ⟨i, hi'⟩).id =
          (([oE1, oE2] : List Order).get ⟨i, hi⟩).id ∧
       (([resE1, resE2] : List Order).get ⟨i, hi'⟩).customerId =
          (([oE1, oE2] : List Order).get ⟨i, hi⟩).customerId ∧
       (([resE1, resE2] : List Order).get ⟨i, hi'⟩).storeId =
          (([oE1, oE2] : List Order).get ⟨i, hi⟩).storeId ∧
       (([resE1, resE2] : List Order).get ⟨i, hi'⟩).priority =
          (([oE1, oE2] : List Order).get ⟨i, hi⟩).priority ∧
       (([resE1, resE2] : List Order).get ⟨i, hi'⟩).pickupLatitude =
          (([oE1, oE2] : List Order).get ⟨i, hi⟩).pickupLatitude ∧
       (([resE1, resE2] : List Order).get ⟨i, hi'⟩).pickupLongitude =
          (([oE1, oE2] : List Order).get ⟨i, hi⟩).pickupLongitude ∧
       (([resE1, resE2] : List Order).get ⟨i, hi'⟩).deliveryLatitude =
          (([oE1, oE2] : List Order).get ⟨i, hi⟩).deliveryLatitude ∧
       (([resE1, resE2] : List Order).get ⟨i, hi'⟩).deliveryLongitude =
          (([oE1, oE2] : List Order).get ⟨i, hi⟩).deliveryLongitude ∧
       (([resE1, resE2] : List Order).get ⟨i, hi'⟩).clusterId =
          (([oE1, oE2] : List Order).get ⟨i, hi⟩).clusterId) ∧
      (i ∈ ([0, 1] : List ℕ) →
        (∃ d : ℕ, (([resE1, resE2] : List Order).get ⟨i, hi'⟩).driverId = some d) ∧
        (([resE1, resE2] : List Order).get ⟨i, hi'⟩).status =
          (if (([oE1, oE2] : List Order).get ⟨i, hi⟩).status = "Pending" then "Assigned"
           else (([oE1, oE2] : List Order).get ⟨i, hi⟩).status)) ∧
      (i ∉ ([0, 1] : List ℕ) →
        ([resE1, resE2] : List Order).get ⟨i, hi'⟩ =
          ([oE1, oE2] : List Order).get ⟨i, hi⟩ ∧
        (([resE1, resE2] : List Order).get ⟨i, hi'⟩).driverId = none) :=
  C7_frame [oE1, oE2] agentsE 1 [0, 1] (fun _ => 0) [resE1, resE2]
    (by simp [oE1, oE2]) evalE

theorem C8_witness :
    (1 ≤ num_to_assign ([oE1, oE2] : List Order).length 1 →
      ∃ msg, assign_drivers_to_orders [oE1, oE2] [] 1 [0, 1] (fun _ => 0) =
        .error msg) ∧
    (num_to_assign ([oE1, oE2] : List Order).length 1 = 0 →
      assign_drivers_to_orders [oE1, oE2] [] 1 [0, 1] (fun _ => 0) = .ok [oE1, oE2]) :=
  C8_amended_empty_pool [oE1, oE2] 1 [0, 1] (fun _ => 0) (by norm_num) le_rfl
    (by norm_num [num_to_assign, pyIntQ]; rfl) (by intro j hj; fin_cases hj <;> norm_num)

theorem C10_witness :
    generate_orders 5 [] [store1] (fun _ => 0) (fun _ => 0) (fun _ => "Pending")
      (fun _ => "Low") = [] :=
  C10_empty_inputs 5 [] [store1] (fun _ => 0) (fun _ => 0) (fun _ => "Pending")
    (fun _ => "Low") (Or.inl rfl)

end Logistics
